import Mathlib

/-! Verification of the Quoridor rules engine (`src/quoridor.rs`).

Shallow embedding conventions:
* Rust `i32` is modelled as `Int` (all quantities stay far from the 32-bit
  range on a 9×9 board; `i32::abs` is `Int.natAbs`).
* Rust `u8` fields (`id`, `walls`) are modelled as `Nat`; the `as u8`
  truncations of `from_json` are modelled as `% 256`.
* `HashSet<Wall>` is modelled as a `List Wall` used as a set: `contains` is
  membership, `insert` appends when absent, `remove` erases.  The set-like
  usage of the source never depends on iteration order except in `to_json`,
  where the list order stands for the unspecified `HashSet` iteration order.
* `HashMap<String, Player>` is modelled as an association list
  `List (String × Player)`; the source maintains the no-duplicate-key
  invariant of `HashMap`.
* Functions that can panic in Rust (indexing a map with a missing key,
  `assert!`, out-of-range array index, `Option::unwrap` on `None`) return
  `Option _`, with `none` standing for the panic.
* `Result<String, String>` values are modelled by `RRes`; the message
  payloads are dropped because no caller in the engine inspects them.
-/

namespace Quoridor

/-- Board side, `const N: i32 = 9`. -/
def N : Int := 9

/-- Distance used as infinity, `const MAX_DIST: i32 = 100000`. -/
def MAX_DIST : Int := 100000

/-- Sentinel `const GAME_OVER: i32 = -2`. -/
def GAME_OVER : Int := -2

/-- Sentinel `const GAME_NOT_STARTED: i32 = -2`. -/
def GAME_NOT_STARTED : Int := -2

/-- Wall orientation (`enum Direction` in `quoridor.rs`). -/
inductive Orientation where
  | Horizontal
  | Vertical
deriving DecidableEq, Repr

/-- Grid coordinate (`struct Point`). -/
structure Point where
  x : Int
  y : Int
deriving DecidableEq, Repr

/-- Wall anchored at an interior intersection (`struct Wall`). -/
structure Wall where
  x : Int
  y : Int
  d : Orientation
deriving DecidableEq, Repr

/-- Registered player (`struct Player`). -/
structure Player where
  p : Point
  p_last : Option Point
  key : String
  id : Nat
  walls : Nat
  name : String
deriving DecidableEq, Repr

/-- Whole game state (`struct Game`). -/
structure Game where
  walls : List Wall
  players : List (String × Player)
  turn : Int
deriving DecidableEq, Repr

/-- Outcome of a fallible engine call; stands for `Result<String, String>`
with the (never inspected) message strings dropped. -/
inductive RRes where
  | ok
  | err
deriving DecidableEq, Repr

namespace Point

/-- Embeds `Point::right`. -/
def right (p : Point) : Point := ⟨p.x + 1, p.y⟩

/-- Embeds `Point::left`. -/
def left (p : Point) : Point := ⟨p.x - 1, p.y⟩

/-- Embeds `Point::up`. -/
def up (p : Point) : Point := ⟨p.x, p.y - 1⟩

/-- Embeds `Point::down`. -/
def down (p : Point) : Point := ⟨p.x, p.y + 1⟩

/-- Embeds `Point::inbounds`. -/
def inbounds (p : Point) : Bool :=
  decide (0 ≤ p.x) && decide (p.x < N) && decide (0 ≤ p.y) && decide (p.y < N)

/-- Embeds `Point::neighbors`. -/
def neighbors (a b : Point) : Bool :=
  ((a.x - b.x).natAbs == 0 && (a.y - b.y).natAbs == 1) ||
  ((a.y - b.y).natAbs == 0 && (a.x - b.x).natAbs == 1)

end Point

namespace Wall

/-- Embeds `Wall::horizontal`. -/
def horizontal (x y : Int) : Wall := ⟨x, y, Orientation.Horizontal⟩

/-- Embeds `Wall::vertical`. -/
def vertical (x y : Int) : Wall := ⟨x, y, Orientation.Vertical⟩

/-- Embeds `Wall::inbounds`. -/
def inbounds (w : Wall) : Bool :=
  decide (0 < w.x) && decide (w.x < N) && decide (0 < w.y) && decide (w.y < N)

/-- Embeds `Wall::shift`. -/
def shift (w : Wall) (dx dy : Int) : Wall := ⟨w.x + dx, w.y + dy, w.d⟩

/-- Embeds `Wall::rotate`. -/
def rotate (w : Wall) : Wall :=
  ⟨w.x, w.y,
    match w.d with
    | Orientation.Vertical => Orientation.Horizontal
    | Orientation.Horizontal => Orientation.Vertical⟩

/-- Embeds `Wall::to_tuples`. -/
def to_tuples (w : Wall) : (Int × Int) × (Int × Int) :=
  match w.d with
  | Orientation.Vertical => ((w.x, w.y - 1), (w.x, w.y + 1))
  | Orientation.Horizontal => ((w.x - 1, w.y), (w.x + 1, w.y))

end Wall

/-- Embeds `HashSet::contains` on the wall set. -/
def hsContains (s : List Wall) (w : Wall) : Bool := decide (w ∈ s)

/-- Embeds `HashSet::insert` on the wall set: a no-op when present, appends when
absent. -/
def hsInsert (s : List Wall) (w : Wall) : List Wall :=
  if w ∈ s then s else s ++ [w]

/-- Embeds `HashSet::remove` on the wall set (the set never holds duplicates, so
erasing the first occurrence models removal). -/
def hsErase (s : List Wall) (w : Wall) : List Wall := s.erase w

/-- Embeds `Game::has_wall_between` restricted to its real input, the wall set. -/
def has_wall_between (walls : List Wall) (a b : Point) : Bool :=
  if !(a.neighbors b) then false
  else if a.y == b.y then
    let test_wall := Wall.vertical (max a.x b.x) a.y
    hsContains walls test_wall || hsContains walls (test_wall.shift 0 1)
  else if a.x == b.x then
    let test_wall := Wall.horizontal a.x (max a.y b.y)
    hsContains walls test_wall || hsContains walls (test_wall.shift 1 0)
  else false

/-- Embeds `Game::is_valid_jump`, with the game state split into its two inputs:
the wall set and the occupancy predicate
(`occ pt = self.get_player_at_position(pt).is_ok()`).  `true` stands for
`Ok(())`, `false` for any `Err(_)`. -/
def is_valid_jumpCore (walls : List Wall) (occ : Point → Bool) (a b : Point) : Bool :=
  let dx := b.x - a.x
  let dy := b.y - a.y
  let horizontal_jump := dy.natAbs == 2 && dx == 0
  let vertical_jump := dy == 0 && dx.natAbs == 2
  let linear_jump := horizontal_jump || vertical_jump
  let corner_jump := dx.natAbs == 1 && dy.natAbs == 1
  if linear_jump then
    let them_pos : Point := ⟨b.x - dx / 2, b.y - dy / 2⟩
    let occupied := occ them_pos
    let step1 := !has_wall_between walls a them_pos
    let step2 := !has_wall_between walls them_pos b
    step1 && occupied && step2
  else if corner_jump then
    let path1 := occ ⟨b.x, a.y⟩
    let back_wall1 := has_wall_between walls ⟨b.x, a.y⟩ ⟨b.x + dx, a.y⟩
    let step11 := !has_wall_between walls a ⟨a.x + dx, a.y⟩
    let step12 := !has_wall_between walls ⟨a.x + dx, a.y⟩ b
    if path1 && back_wall1 && step11 && step12 then true
    else
      let path2 := occ ⟨a.x, b.y⟩
      let back_wall2 := has_wall_between walls ⟨a.x, b.y⟩ ⟨a.x, b.y + dy⟩
      let step21 := !has_wall_between walls a ⟨a.x, a.y + dy⟩
      let step22 := !has_wall_between walls ⟨a.x, a.y + dy⟩ b
      path2 && back_wall2 && step21 && step22
  else false

/-- Embeds `Game::adj`, with the game state split into wall set and occupancy;
`true` stands for `Ok(())`. -/
def adjCore (walls : List Wall) (occ : Point → Bool) (a b : Point) : Bool :=
  if !a.inbounds then false
  else if !b.inbounds then false
  else if a == b then false
  else if !(a.neighbors b) then is_valid_jumpCore walls occ a b
  else if occ b then false
  else if has_wall_between walls a b then false
  else true

/-- Embeds `Game::get_player_at_position`, reduced to the only fact callers use:
whether some registered player sits at the point (`.is_ok()`). -/
def occB (g : Game) : Point → Bool :=
  fun pt => g.players.any (fun kv => decide (kv.2.p = pt))

/-- Embeds `Game::adj` as a method on the game state. -/
def Game.adj (g : Game) (a b : Point) : Bool :=
  adjCore g.walls (occB g) a b

/-- Embeds `Game::is_valid_jump` as a method on the game state. -/
def Game.is_valid_jump (g : Game) (a b : Point) : Bool :=
  is_valid_jumpCore g.walls (occB g) a b

/-- Embeds `HashMap` lookup on an association list. -/
def mlookup {α β : Type} [DecidableEq α] (k : α) : List (α × β) → Option β
  | [] => none
  | kv :: rest => if k = kv.1 then some kv.2 else mlookup k rest

/-- The `HashMap<Point, i32>` distance map of `dijkstra`, as an association
list. -/
def DistMap := List (Point × Int)

/-- Reading `dist[&p]`.  The source only ever reads keys that are present;
the default `MAX_DIST` covers the (unreached) missing-key panic. -/
def dlookup (m : DistMap) (p : Point) : Int :=
  match mlookup p m with
  | some v => v
  | none => MAX_DIST

/-- Embeds `HashMap::contains_key` on the distance map. -/
def dcontains (m : DistMap) (p : Point) : Bool :=
  (mlookup p m).isSome

/-- Embeds `HashMap::insert` on the distance map: replaces the binding when the key
is present, otherwise adds it. -/
def dinsert (m : DistMap) (p : Point) (v : Int) : DistMap :=
  if dcontains m p then
    m.map (fun kv => if kv.1 = p then (p, v) else kv)
  else
    (p, v) :: m

/-- The `prev` map of `dijkstra` (`HashMap<Point, Point>`). -/
def PrevMap := List (Point × Point)

/-- Embeds `HashMap::insert` on the `prev` map. -/
def pinsert (m : PrevMap) (p q : Point) : PrevMap :=
  if (mlookup p m).isSome then
    m.map (fun kv => if kv.1 = p then (p, q) else kv)
  else
    (p, q) :: m

/-- The mutable state of the `dijkstra` loop: the `dist` and `prev` maps. -/
structure DS where
  dist : DistMap
  prev : PrevMap

/-- Grid enumeration order of the two `for x in 0..N { for y in 0..N }`
initialisation loops. -/
def gridPts : List Point :=
  (List.range 9).flatMap (fun x => (List.range 9).map (fun y => ⟨Int.ofNat x, Int.ofNat y⟩))

/-- Offsets `-2..3` of the neighbourhood scan. -/
def offRange : List Int := [-2, -1, 0, 1, 2]

/-- The 25 candidate neighbours pushed for a node `u`
(`for dx in -2..3 { for dy in -2..3 { neighbors.push(..) } }`). -/
def neighborCands (u : Point) : List Point :=
  offRange.flatMap (fun dx => offRange.map (fun dy => ⟨u.x + dx, u.y + dy⟩))

/-- One relaxation attempt of the inner `for v in &neighbors` loop body. -/
def relaxOne (walls : List Wall) (occ : Point → Bool) (u : Point)
    (st : DS) (v : Point) : DS :=
  if dcontains st.dist v && adjCore walls occ u v then
    let alt := dlookup st.dist u + 1
    if alt < dlookup st.dist v then
      { dist := dinsert st.dist v alt, prev := pinsert st.prev v u }
    else st
  else st

/-- The whole `for v in &neighbors` relaxation loop for a chosen node `u`. -/
def relaxAll (walls : List Wall) (occ : Point → Bool) (u : Point) (st : DS) : DS :=
  (neighborCands u).foldl (relaxOne walls occ u) st

/-- The minimum-distance scan of one `while` iteration: `u` starts as the
first remaining node, `min` as `MAX_DIST`, and every remaining node with a
strictly smaller distance replaces the pair. -/
def selectMinAux (m : DistMap) : List Point → Point × Int → Point × Int
  | [], acc => acc
  | n :: ns, acc =>
      let d := dlookup m n
      selectMinAux m ns (if d < acc.2 then (n, d) else acc)

/-- The node extracted by one `while` iteration. -/
def selectMin (m : DistMap) (nodes : List Point) : Point :=
  match nodes with
  | [] => ⟨0, 0⟩
  | n :: _ => (selectMinAux m nodes (n, MAX_DIST)).1

/-- The `while !nodes.is_empty()` loop of `dijkstra`.  The fuel equals the
initial number of nodes; each iteration removes the selected node (always a
member, see `selectMin_mem`), so the loop runs to emptiness exactly as the
source loop does. -/
def dijkstraLoop (walls : List Wall) (occ : Point → Bool) :
    Nat → List Point → DS → DS
  | 0, _, st => st
  | Nat.succ fuel, nodes, st =>
    if nodes.isEmpty then st
    else
      let u := selectMin st.dist nodes
      dijkstraLoop walls occ fuel (nodes.erase u) (relaxAll walls occ u st)

/-- Embeds `Game::dijkstra`, with the game state split into wall set and
occupancy. -/
def dijkstraCore (walls : List Wall) (occ : Point → Bool) (src : Point) : DS :=
  let dist0 : DistMap := gridPts.map (fun p => (p, MAX_DIST))
  let st0 : DS := { dist := dinsert dist0 src 0, prev := [] }
  dijkstraLoop walls occ gridPts.length gridPts st0

/-- Embeds `Game::dijkstra` as a method on the game state. -/
def Game.dijkstra (g : Game) (src : Point) : DS :=
  dijkstraCore g.walls (occB g) src

/-- The `(0..N).fold(false, |v, i| v || d[..] < MAX_DIST)` scan of
`check_win_condition` over one goal row `y`. -/
def goalRowScan (d : DistMap) (y : Int) : Bool :=
  (List.range 9).foldl
    (fun v i => v || decide (dlookup d ⟨Int.ofNat i, y⟩ < MAX_DIST)) false

/-- The body of `Game::check_win_condition` once the player has been looked
up (`let p = &self.players[&name]` already resolved). -/
def check_win_core (g : Game) (pl : Player) : Bool :=
  let d := (g.dijkstra pl.p).dist
  if pl.id = 0 then goalRowScan d (N - 1)
  else if pl.id = 1 then goalRowScan d 0
  else false

/-- Embeds `Game::check_win_condition`; `none` models the panic of indexing
`self.players[&name]` with an unregistered name. -/
def check_win_condition (g : Game) (name : String) : Option Bool :=
  match mlookup name g.players with
  | none => none
  | some pl => some (check_win_core g pl)

/-- Embeds `Player::has_won`. -/
def Player.has_won (pl : Player) : Bool :=
  (pl.id != 1 && decide (pl.p.y < 0)) || (pl.id != 2 && decide (pl.p.x < 0)) ||
  (pl.id != 0 && decide (pl.p.y ≥ N)) || (pl.id != 3 && decide (pl.p.y ≥ N))

/-- Embeds `Game::new`. -/
def Game.new : Game :=
  { players := [], walls := [], turn := GAME_NOT_STARTED }

/-- Embeds `HashMap::get_mut`-style in-place update of one player. -/
def updatePlayer (ps : List (String × Player)) (name : String)
    (f : Player → Player) : List (String × Player) :=
  ps.map (fun kv => if kv.1 = name then (kv.1, f kv.2) else kv)

/-- Embeds `Game::move_player_to`.  `none` models the (unreachable, because guarded
by `contains_key`) panic of `self.players[&name]`. -/
def move_player_to (g : Game) (name : String) (pos : Point) :
    Option (RRes × Game) :=
  if !(mlookup name g.players).isSome then some (RRes.err, g)
  else
    match mlookup name g.players with
    | none => none
    | some pl =>
      if g.adj pl.p pos then
        let ps := updatePlayer g.players name
          (fun q => { q with p_last := some q.p, p := pos })
        some (RRes.ok, { g with players := ps })
      else some (RRes.err, g)

/-- Embeds `Game::move_player`.  The first line `let p = self.players[&name].p;`
panics (`none`) when the name is unregistered. -/
def move_player (g : Game) (name : String) (dir : String) :
    Option (RRes × Game) :=
  match mlookup name g.players with
  | none => none
  | some pl =>
    let p := pl.p
    let d := dir.toUpper
    if d = "UP" then move_player_to g name p.up
    else if d = "DOWN" then move_player_to g name p.down
    else if d = "LEFT" then move_player_to g name p.left
    else if d = "RIGHT" then move_player_to g name p.right
    else some (RRes.err, g)

/-- Embeds `Game::is_valid_wall`.  The function takes `&mut self`: it temporarily
inserts the candidate wall, evaluates every player's path check on that
modified state, removes the wall again, and the *returned* game is the state
the caller is left with.  The player fold
`players.keys().fold(true, |v, i| v && check_win_condition(i))` is rendered
entry-wise, which agrees with the key fold on `HashMap`s (no duplicate
keys). -/
def is_valid_wall (g : Game) (wall : Wall) : Bool × Game :=
  if !wall.inbounds then (false, g)
  else if hsContains g.walls wall then (false, g)
  else if wall.d == Orientation.Vertical &&
      (hsContains g.walls wall.rotate || hsContains g.walls (wall.shift 0 (-1)) ||
       hsContains g.walls (wall.shift 0 1)) then (false, g)
  else if wall.d != Orientation.Vertical &&
      (hsContains g.walls wall.rotate || hsContains g.walls (wall.shift (-1) 0) ||
       hsContains g.walls (wall.shift 1 0)) then (false, g)
  else
    let gIns : Game := { g with walls := hsInsert g.walls wall }
    let win_conditions := gIns.players.all (fun kv => check_win_core gIns kv.2)
    let gBack : Game := { gIns with walls := hsErase gIns.walls wall }
    (win_conditions, gBack)

/-- Embeds `Game::add_wall`. -/
def add_wall (g : Game) (wall : Wall) : RRes × Game :=
  let r := is_valid_wall g wall
  if r.1 then (RRes.ok, { r.2 with walls := hsInsert r.2.walls wall })
  else (RRes.err, r.2)

/-- Embeds `Game::start_game`.  `none` models the
`assert!(len == 4 || len == 2)` panic. -/
def start_game (g : Game) : Option Game :=
  let g1 : Game := { g with turn := 0 }
  if g1.players.length == 4 || g1.players.length == 2 then
    let g2 : Game :=
      if g1.players.length == 4 then
        { g1 with players := g1.players.map (fun kv => (kv.1, { kv.2 with walls := 5 })) }
      else g1
    let g3 : Game :=
      if g2.players.length == 2 then
        { g2 with players := g2.players.map (fun kv => (kv.1, { kv.2 with walls := 10 })) }
      else g2
    some g3
  else none

/-- Embeds `Game::next_turn`.  The win scan computes `self.turn == GAME_OVER` — a
comparison whose result is discarded (the source uses `==` where an
assignment was evidently intended), so the scan has no effect on the state;
only the increment remains.  `none` models the division-by-zero panic of
`% (players.len() as i32)` on an empty registry; `Int.tmod` matches Rust's
truncated `%`. -/
def next_turn (g : Game) : Option Game :=
  if g.players.length == 0 then none
  else some { g with turn := (g.turn + 1).tmod (g.players.length : Int) }

/-- The fixed `starting_positions` array of `add_player`. -/
def starting_positions : List Point :=
  [⟨N / 2, 0⟩, ⟨N / 2, N - 1⟩, ⟨0, N / 2⟩, ⟨N - 1, N / 2⟩]

/-- Embeds `Game::add_player`.  `none` models the array-index panic (unreachable:
the quota guard keeps the index below 2) and the `start_game` assertion. -/
def add_player (g : Game) (name key : String) : Option (RRes × Game) :=
  if 0 ≤ g.turn then some (RRes.err, g)
  else if (mlookup name g.players).isSome then some (RRes.err, g)
  else if 2 ≤ g.players.length then some (RRes.err, g)
  else
    match starting_positions.get? g.players.length with
    | none => none
    | some pos =>
      let player : Player :=
        { p := pos, p_last := none, key := key, id := g.players.length,
          walls := 0, name := name }
      let g1 : Game := { g with players := g.players ++ [(name, player)] }
      if g1.players.length == 2 then
        match start_game g1 with
        | none => none
        | some g2 => some (RRes.ok, g2)
      else some (RRes.ok, g1)

/-- One serialized player object, `Player::to_json`
(`{"position": [x, y], "id": .., "walls": .., "name": ..}`). -/
structure PlayerJson where
  position : List Int
  id : Nat
  walls : Nat
  name : String
deriving DecidableEq, Repr

/-- The snapshot document produced by `Game::to_json` and consumed by
`Game::from_json` (the JSON encoding itself is assumed faithful). -/
structure Snapshot where
  turn : Int
  size : Int
  walls : List (List (List Int))
  players : List PlayerJson
deriving DecidableEq, Repr

/-- Embeds `Player::to_json`. -/
def Player.to_json (pl : Player) : PlayerJson :=
  { position := [pl.p.x, pl.p.y], id := pl.id, walls := pl.walls,
    name := pl.name }

/-- Embeds `Game::to_json`. -/
def Game.to_json (g : Game) : Snapshot :=
  { turn := g.turn
    size := N
    walls := g.walls.map (fun w =>
      let t := w.to_tuples
      [[t.1.1, t.1.2], [t.2.1, t.2.2]])
    players := g.players.map (fun kv => kv.2.to_json) }

/-- Embeds `Json::as_u64` on a serialized `i32`: negative values give `None`. -/
def as_u64 (v : Int) : Option Int :=
  if v < 0 then none else some v

/-- Rust's `as i32` applied to a `u64` value. -/
def u64_as_i32 (v : Int) : Int :=
  let r := v % 4294967296
  if r < 2147483648 then r else r - 4294967296

/-- Rust's `as u8` applied to a `u64` value. -/
def u64_as_u8 (v : Int) : Nat := (v % 256).toNat

/-- The per-player part of `Game::from_json`; `none` models the
`unwrap()` panics on a malformed entry. -/
def player_from_json (pj : PlayerJson) : Option Player :=
  match pj.position.get? 0, pj.position.get? 1 with
  | some x0, some y0 =>
    match as_u64 x0, as_u64 y0 with
    | some x1, some y1 =>
      some
        { p := ⟨u64_as_i32 x1, u64_as_i32 y1⟩
          id := u64_as_u8 pj.id
          p_last := none
          key := ""
          walls := u64_as_u8 pj.walls
          name := pj.name }
    | _, _ => none
  | _, _ => none

/-- Embeds `HashMap::insert` on the player map. -/
def hmInsert (ps : List (String × Player)) (name : String) (pl : Player) :
    List (String × Player) :=
  if (mlookup name ps).isSome then
    ps.map (fun kv => if kv.1 = name then (name, pl) else kv)
  else ps ++ [(name, pl)]

/-- One step of the player-loading loop of `Game::from_json`. -/
def from_json_step (acc : Option Game) (pj : PlayerJson) : Option Game :=
  match acc with
  | none => none
  | some g =>
    match player_from_json pj with
    | none => none
    | some pl => some { g with players := hmInsert g.players pl.name pl }

/-- Embeds `Game::from_json`.  The walls of the snapshot are never read: the
reconstructed game always has an empty wall set.  `none` models the
`unwrap()` panics (negative `turn` or coordinates). -/
def from_json (s : Snapshot) : Option Game :=
  match as_u64 s.turn with
  | none => none
  | some t =>
    s.players.foldl from_json_step (some { Game.new with turn := u64_as_i32 t })

/-! Section: Specification-side notions

The definitions below are taken from the wording of the specification (not
from the source); they are compared against the embedded source functions. -/

/-- One step of a path that respects walls and ignores pawn occupancy: a move
between in-bounds orthogonal neighbours with no wall on the shared edge. -/
def wallsStep (walls : List Wall) (a b : Point) : Prop :=
  a.inbounds = true ∧ b.inbounds = true ∧ a.neighbors b = true ∧
    has_wall_between walls a b = false

/-- Finite-length path respecting walls and ignoring pawn occupancy. -/
def WallsReach (walls : List Wall) : Point → Point → Prop :=
  Relation.ReflTransGen (wallsStep walls)

/-- Reachability along edges accepted by `adj` (walls and occupancy). -/
def AdjReach (walls : List Wall) (occ : Point → Bool) : Point → Point → Prop :=
  Relation.ReflTransGen (fun a b => adjCore walls occ a b = true)

/-- The goal edge fixed by a player's id: id 0 starts on row 0 and must
reach row `N-1`, id 1 the opposite; ids 2 and 3 would race for the columns. -/
def goalEdge (pl : Player) (t : Point) : Prop :=
  (pl.id = 0 ∧ t.y = N - 1) ∨ (pl.id = 1 ∧ t.y = 0) ∨
  (pl.id = 2 ∧ t.x = N - 1) ∨ (pl.id = 3 ∧ t.x = 0)

/-- The corner-jump legality condition exactly as the specification words it:
an adjacent opponent in one of the two diagonal-consistent cardinal
directions, the straight jump over it blocked *by a wall or by the board
edge* immediately behind the opponent, and no wall on the start–opponent or
opponent–end edges. -/
def cornerJumpSpec (walls : List Wall) (occ : Point → Bool) (a b : Point) : Bool :=
  let dx := b.x - a.x
  let dy := b.y - a.y
  let opp1 : Point := ⟨b.x, a.y⟩
  let behind1 : Point := ⟨b.x + dx, a.y⟩
  let opp2 : Point := ⟨a.x, b.y⟩
  let behind2 : Point := ⟨a.x, b.y + dy⟩
  (occ opp1 && (has_wall_between walls opp1 behind1 || !behind1.inbounds) &&
     !has_wall_between walls a opp1 && !has_wall_between walls opp1 b) ||
  (occ opp2 && (has_wall_between walls opp2 behind2 || !behind2.inbounds) &&
     !has_wall_between walls a opp2 && !has_wall_between walls opp2 b)

/-- The corner-jump condition with only walls (not the board edge) counting
as the blocker behind the opponent — the behaviour the source implements. -/
def cornerJumpWallOnly (walls : List Wall) (occ : Point → Bool) (a b : Point) : Bool :=
  let dx := b.x - a.x
  let dy := b.y - a.y
  let opp1 : Point := ⟨b.x, a.y⟩
  let behind1 : Point := ⟨b.x + dx, a.y⟩
  let opp2 : Point := ⟨a.x, b.y⟩
  let behind2 : Point := ⟨a.x, b.y + dy⟩
  (occ opp1 && has_wall_between walls opp1 behind1 &&
     !has_wall_between walls a opp1 && !has_wall_between walls opp1 b) ||
  (occ opp2 && has_wall_between walls opp2 behind2 &&
     !has_wall_between walls a opp2 && !has_wall_between walls opp2 b)

/-- The per-player remaining-wall counts of a state. -/
def wallCounts (g : Game) : List (String × Nat) :=
  g.players.map (fun kv => (kv.1, kv.2.walls))

/-- What deserialisation forgets about a player: the credential and the
last-position backup. -/
def stripPlayer (pl : Player) : Player :=
  { pl with key := "", p_last := none }

/-! Section: Concrete states used by witnesses and counterexamples -/

/-- A wall used by several concrete scenarios. -/
def w0 : Wall := Wall.horizontal 1 1

/-- The state after registering one player `a` (the value of
`add_player Game.new "a" ""`). -/
def g1p : Game :=
  { walls := []
    players := [(("a"), { p := ⟨4, 0⟩, p_last := none, key := "", id := 0,
                          walls := 0, name := "a" })]
    turn := -2 }

/-- The state `g1p` after the accepted wall `w0`. -/
def g1pw : Game := { g1p with walls := [w0] }

/-- The started two-player state reached from `g1pw` by registering `b`. -/
def gSW : Game :=
  { walls := [w0]
    players := [(("a"), { p := ⟨4, 0⟩, p_last := none, key := "", id := 0,
                          walls := 10, name := "a" }),
                (("b"), { p := ⟨4, 8⟩, p_last := none, key := "", id := 1,
                          walls := 10, name := "b" })]
    turn := 0 }

/-- A state with a single pawn parked on `(4,1)` and no walls. -/
def gB : Game :=
  { walls := []
    players := [(("b"), { p := ⟨4, 1⟩, p_last := none, key := "", id := 0,
                          walls := 0, name := "b" })]
    turn := -2 }

/-- A state with a single opponent pawn on the west edge cell `(0,4)`. -/
def gEdge : Game :=
  { walls := []
    players := [(("o"), { p := ⟨0, 4⟩, p_last := none, key := "", id := 0,
                          walls := 0, name := "o" })]
    turn := -2 }

/-- A state with a single pawn on `(4,5)`. -/
def gC9 : Game :=
  { walls := []
    players := [(("o"), { p := ⟨4, 5⟩, p_last := none, key := "", id := 0,
                          walls := 0, name := "o" })]
    turn := -2 }

/-- A started two-player state with player `a` (id 0) one step short of its
goal row `y = 8`. -/
def gC3 : Game :=
  { walls := []
    players := [(("a"), { p := ⟨3, 7⟩, p_last := none, key := "", id := 0,
                          walls := 10, name := "a" }),
                (("b"), { p := ⟨4, 8⟩, p_last := none, key := "", id := 1,
                          walls := 10, name := "b" })]
    turn := 0 }

/-- The state `gC3` after player `a`'s accepted move onto its goal row. -/
def gC3after : Game :=
  { walls := []
    players := [(("a"), { p := ⟨3, 8⟩, p_last := some ⟨3, 7⟩, key := "", id := 0,
                          walls := 10, name := "a" }),
                (("b"), { p := ⟨4, 8⟩, p_last := none, key := "", id := 1,
                          walls := 10, name := "b" })]
    turn := 0 }

/-- The state `gSW` after `b`'s accepted move from `(4,8)` to `(4,7)`. -/
def gSWmoved : Game :=
  { walls := [w0]
    players := [(("a"), { p := ⟨4, 0⟩, p_last := none, key := "", id := 0,
                          walls := 10, name := "a" }),
                (("b"), { p := ⟨4, 7⟩, p_last := some ⟨4, 8⟩, key := "", id := 1,
                          walls := 10, name := "b" })]
    turn := 0 }

/-- A one-player game used by the C2 witness: `u` parked on `(2,3)`. -/
def gO1 : Game :=
  { walls := []
    players := [(("u"), { p := ⟨2, 3⟩, p_last := none, key := "u1", id := 0,
                          walls := 3, name := "u" })]
    turn := -2 }

/-- A different one-player game with the same pawn placement as `gO1`. -/
def gO2 : Game :=
  { walls := []
    players := [(("v"), { p := ⟨2, 3⟩, p_last := none, key := "v2", id := 1,
                          walls := 7, name := "v" })]
    turn := 0 }

/-- A state with an opponent on `(5,4)` and a wall directly behind it (east),
enabling the corner jump `(4,4) → (5,5)`. -/
def gC7 : Game :=
  { walls := [Wall.vertical 6 4]
    players := [(("o"), { p := ⟨5, 4⟩, p_last := none, key := "", id := 0,
                          walls := 0, name := "o" })]
    turn := -2 }

/-- The state `gEdge` jump scenario: a corner jump from `(1,4)` over the
opponent to `(0,3)`, with the board edge directly behind the opponent. -/
def cornerA : Point := ⟨1, 4⟩

/-- Landing cell of the `gEdge` corner-jump scenario. -/
def cornerB : Point := ⟨0, 3⟩

/-- Replays a list of `move_player_to` calls, succeeding only if every single
move is accepted by the engine. -/
def runMoves (g : Game) (nm : String) : List Point → Option Game
  | [] => some g
  | t :: ts =>
    match move_player_to g nm t with
    | some (RRes.ok, g2) => runMoves g2 nm ts
    | _ => none

/-- The sequence of accepted pawn moves taking player `a` from its starting
cell `(4,0)` to the goal-row cell `(3,8)` (the last step sidesteps the cell
`(4,8)` so that the second player can later register on its free starting
cell). -/
def movesA : List Point :=
  [⟨4, 1⟩, ⟨4, 2⟩, ⟨4, 3⟩, ⟨4, 4⟩, ⟨4, 5⟩, ⟨4, 6⟩, ⟨4, 7⟩, ⟨3, 7⟩, ⟨3, 8⟩]

/-- The player record of `a` after the moves `movesA`. -/
def pA8 : Player :=
  { p := ⟨3, 8⟩, p_last := some ⟨3, 7⟩, key := "", id := 0, walls := 0,
    name := "a" }

/-- The reachable one-player state with `a` parked on its own goal row
`y = 8` (the value of `runMoves g1p "a" movesA`). -/
def g1p8 : Game :=
  { walls := [], players := [(("a"), pA8)], turn := -2 }

/-- The state `g1p8` after the accepted wall `w0`. -/
def g1p8w : Game := { g1p8 with walls := [w0] }

/-- The started two-player state reached from `g1p8w` by registering `b`. -/
def gSW8 : Game :=
  { walls := [w0]
    players := [(("a"), { pA8 with walls := 10 }),
                (("b"), { p := ⟨4, 8⟩, p_last := none, key := "", id := 1,
                          walls := 10, name := "b" })]
    turn := 0 }

/-! Section: Infrastructure lemmas -/

theorem mlookup_map_replace (m : List (Point × Int)) (p q : Point) (v : Int) :
    mlookup q (m.map (fun kv => if kv.1 = p then (p, v) else kv)) =
      if q = p then (mlookup p m).map (fun _ => v) else mlookup q m := by
  induction m with
  | nil => by_cases h : q = p <;> simp [mlookup, h]
  | cons kv m ih =>
    obtain ⟨k, w⟩ := kv
    by_cases h1 : k = p
    · subst h1
      by_cases h2 : q = k <;> simp [mlookup, h2, ih]
    · by_cases h2 : q = k
      · subst h2
        simp [mlookup, h1, Ne.symm h1]
      · by_cases h3 : q = p
        · subst h3
          simp [mlookup, h1, h2, ih]
        · simp [mlookup, h1, h2, h3, ih]

theorem dlookup_dinsert (m : DistMap) (p q : Point) (v : Int) :
    dlookup (dinsert m p v) q = if q = p then v else dlookup m q := by
  unfold dinsert dcontains
  by_cases hc : (mlookup p m).isSome
  · rw [if_pos hc]
    unfold dlookup
    rw [mlookup_map_replace]
    by_cases h : q = p
    · subst h
      obtain ⟨w, hw⟩ := Option.isSome_iff_exists.mp hc
      simp [hw]
    · simp [h]
  · rw [if_neg hc]
    unfold dlookup
    by_cases h : q = p <;> simp [mlookup, h]

theorem dlookup_map_const (l : List Point) (q : Point) :
    dlookup (l.map (fun p => (p, MAX_DIST))) q = MAX_DIST := by
  induction l with
  | nil => simp [dlookup, mlookup]
  | cons p l ih =>
    by_cases h : q = p
    · simp [dlookup, mlookup, h]
    · simp only [dlookup, mlookup, List.map_cons, if_neg h]
      simpa [dlookup] using ih

theorem dlookup_dijkstra_init (src q : Point) :
    dlookup (dinsert (gridPts.map (fun p => (p, MAX_DIST))) src 0) q =
      if q = src then 0 else MAX_DIST := by
  rw [dlookup_dinsert]
  by_cases h : q = src <;> simp [h, dlookup_map_const]

theorem inbounds_iff (p : Point) :
    p.inbounds = true ↔ 0 ≤ p.x ∧ p.x < 9 ∧ 0 ≤ p.y ∧ p.y < 9 := by
  simp [Point.inbounds, N, and_assoc]

theorem neighbors_iff (a b : Point) :
    a.neighbors b = true ↔
      ((a.x - b.x).natAbs = 0 ∧ (a.y - b.y).natAbs = 1) ∨
      ((a.y - b.y).natAbs = 0 ∧ (a.x - b.x).natAbs = 1) := by
  simp [Point.neighbors]

theorem neighbors_symm (a b : Point) : a.neighbors b = b.neighbors a := by
  rcases h1 : a.neighbors b
  · rcases h2 : b.neighbors a
    · rfl
    · rw [neighbors_iff] at h2
      have := (neighbors_iff a b).not.mp (by simp [h1])
      omega
  · rw [neighbors_iff] at h1
    rcases h2 : b.neighbors a
    · have := (neighbors_iff b a).not.mp (by simp [h2])
      omega
    · rfl

theorem has_wall_symm (walls : List Wall) (a b : Point) :
    has_wall_between walls a b = has_wall_between walls b a := by
  unfold has_wall_between
  rw [neighbors_symm b a]
  rcases hn : a.neighbors b
  · simp
  · simp only [Bool.not_true, Bool.false_eq_true, if_false]
    by_cases hy : a.y = b.y
    · simp [hy, max_comm]
    · by_cases hx : a.x = b.x
      · simp [hx, hy, Ne.symm hy, max_comm]
      · simp [hx, hy, Ne.symm hy, Ne.symm hx]

/-! Section: Dijkstra only assigns finite distances to adjacency-reachable cells -/

theorem relaxOne_inv (walls : List Wall) (occ : Point → Bool) (src u : Point)
    (st : DS) (v : Point)
    (h1 : ∀ t, dlookup st.dist t < MAX_DIST → AdjReach walls occ src t)
    (h2 : ∀ t, dlookup st.dist t ≤ MAX_DIST) :
    (∀ t, dlookup (relaxOne walls occ u st v).dist t < MAX_DIST →
        AdjReach walls occ src t) ∧
    (∀ t, dlookup (relaxOne walls occ u st v).dist t ≤ MAX_DIST) := by
  unfold relaxOne
  by_cases hc : (dcontains st.dist v && adjCore walls occ u v) = true
  · rw [if_pos hc]
    by_cases hlt : dlookup st.dist u + 1 < dlookup st.dist v
    · rw [if_pos hlt]
      have hadj : adjCore walls occ u v = true := (Bool.and_eq_true_iff.mp hc).2
      have hvle : dlookup st.dist v ≤ MAX_DIST := h2 v
      have hult : dlookup st.dist u < MAX_DIST := by omega
      constructor
      · intro t ht
        simp only at ht
        rw [dlookup_dinsert] at ht
        by_cases htv : t = v
        · subst htv
          exact Relation.ReflTransGen.tail (h1 u hult) hadj
        · rw [if_neg htv] at ht
          exact h1 t ht
      · intro t
        simp only
        rw [dlookup_dinsert]
        by_cases htv : t = v
        · rw [if_pos htv]; omega
        · rw [if_neg htv]; exact h2 t
    · rw [if_neg hlt]; exact ⟨h1, h2⟩
  · rw [if_neg hc]; exact ⟨h1, h2⟩

theorem relaxFold_inv (walls : List Wall) (occ : Point → Bool) (src u : Point) :
    ∀ (cands : List Point) (st : DS),
    (∀ t, dlookup st.dist t < MAX_DIST → AdjReach walls occ src t) →
    (∀ t, dlookup st.dist t ≤ MAX_DIST) →
    (∀ t, dlookup (cands.foldl (relaxOne walls occ u) st).dist t < MAX_DIST →
        AdjReach walls occ src t) ∧
    (∀ t, dlookup (cands.foldl (relaxOne walls occ u) st).dist t ≤ MAX_DIST) := by
  intro cands
  induction cands with
  | nil => intro st h1 h2; exact ⟨h1, h2⟩
  | cons c cs ih =>
    intro st h1 h2
    have h' := relaxOne_inv walls occ src u st c h1 h2
    exact ih _ h'.1 h'.2

theorem dijkstraLoop_inv (walls : List Wall) (occ : Point → Bool) (src : Point) :
    ∀ (fuel : Nat) (nodes : List Point) (st : DS),
    (∀ t, dlookup st.dist t < MAX_DIST → AdjReach walls occ src t) →
    (∀ t, dlookup st.dist t ≤ MAX_DIST) →
    (∀ t, dlookup (dijkstraLoop walls occ fuel nodes st).dist t < MAX_DIST →
        AdjReach walls occ src t) ∧
    (∀ t, dlookup (dijkstraLoop walls occ fuel nodes st).dist t ≤ MAX_DIST) := by
  intro fuel
  induction fuel with
  | zero => intro nodes st h1 h2; exact ⟨h1, h2⟩
  | succ f ih =>
    intro nodes st h1 h2
    simp only [dijkstraLoop]
    by_cases he : nodes.isEmpty
    · rw [if_pos he]; exact ⟨h1, h2⟩
    · rw [if_neg he]
      have h' := relaxFold_inv walls occ src (selectMin st.dist nodes)
        (neighborCands (selectMin st.dist nodes)) st h1 h2
      exact ih _ _ h'.1 h'.2

theorem dijkstra_reach (walls : List Wall) (occ : Point → Bool) (src v : Point)
    (h : dlookup (dijkstraCore walls occ src).dist v < MAX_DIST) :
    AdjReach walls occ src v := by
  unfold dijkstraCore at h
  refine (dijkstraLoop_inv walls occ src gridPts.length gridPts _ ?_ ?_).1 v h
  · intro t ht
    rw [dlookup_dijkstra_init] at ht
    by_cases hts : t = src
    · subst hts; exact Relation.ReflTransGen.refl
    · rw [if_neg hts] at ht
      exact absurd ht (by simp)
  · intro t
    rw [dlookup_dijkstra_init]
    split_ifs <;> decide

/-! Section: A cell with no accepted in-edge keeps an infinite distance -/

theorem relaxOne_frozen (walls : List Wall) (occ : Point → Bool) (u : Point)
    (st : DS) (v c : Point)
    (hblock : ∀ w, adjCore walls occ w v = false)
    (h : dlookup st.dist v = MAX_DIST) :
    dlookup (relaxOne walls occ u st c).dist v = MAX_DIST := by
  unfold relaxOne
  by_cases hc : (dcontains st.dist c && adjCore walls occ u c) = true
  · rw [if_pos hc]
    by_cases hlt : dlookup st.dist u + 1 < dlookup st.dist c
    · rw [if_pos hlt]
      simp only
      rw [dlookup_dinsert]
      have hcv : ¬ v = c := by
        intro hvc
        subst hvc
        have h2 := (Bool.and_eq_true_iff.mp hc).2
        rw [hblock u] at h2
        exact Bool.false_ne_true h2
      rw [if_neg hcv]
      exact h
    · rw [if_neg hlt]; exact h
  · rw [if_neg hc]; exact h

theorem relaxFold_frozen (walls : List Wall) (occ : Point → Bool) (u v : Point)
    (hblock : ∀ w, adjCore walls occ w v = false) :
    ∀ (cands : List Point) (st : DS),
    dlookup st.dist v = MAX_DIST →
    dlookup ((cands.foldl (relaxOne walls occ u) st)).dist v = MAX_DIST := by
  intro cands
  induction cands with
  | nil => intro st h; exact h
  | cons c cs ih =>
    intro st h
    exact ih _ (relaxOne_frozen walls occ u st v c hblock h)

theorem dijkstraLoop_frozen (walls : List Wall) (occ : Point → Bool) (v : Point)
    (hblock : ∀ w, adjCore walls occ w v = false) :
    ∀ (fuel : Nat) (nodes : List Point) (st : DS),
    dlookup st.dist v = MAX_DIST →
    dlookup (dijkstraLoop walls occ fuel nodes st).dist v = MAX_DIST := by
  intro fuel
  induction fuel with
  | zero => intro nodes st h; exact h
  | succ f ih =>
    intro nodes st h
    simp only [dijkstraLoop]
    by_cases he : nodes.isEmpty
    · rw [if_pos he]; exact h
    · rw [if_neg he]
      exact ih _ _ (relaxFold_frozen walls occ _ v hblock _ st h)

theorem dijkstra_unreached (walls : List Wall) (occ : Point → Bool)
    (src v : Point) (hne : v ≠ src)
    (hblock : ∀ w, adjCore walls occ w v = false) :
    dlookup (dijkstraCore walls occ src).dist v = MAX_DIST := by
  unfold dijkstraCore
  refine dijkstraLoop_frozen walls occ v hblock _ _ _ ?_
  rw [dlookup_dijkstra_init, if_neg hne]

/-! Section: Accepted adjacency edges decompose into wall-respecting unit steps -/

theorem wallsReach_two_step (walls : List Wall) (a m b : Point)
    (h1 : wallsStep walls a m) (h2 : wallsStep walls m b) :
    WallsReach walls a b :=
  Relation.ReflTransGen.tail (Relation.ReflTransGen.single h1) h2

theorem jump_to_wallsReach (walls : List Wall) (occ : Point → Bool) (a b : Point)
    (hain : a.inbounds = true) (hbin : b.inbounds = true)
    (h : is_valid_jumpCore walls occ a b = true) : WallsReach walls a b := by
  have ha := (inbounds_iff a).mp hain
  have hb := (inbounds_iff b).mp hbin
  simp only [is_valid_jumpCore] at h
  split at h
  · -- linear jump branch
    next hguard =>
    simp only [Bool.or_eq_true, Bool.and_eq_true_iff, beq_iff_eq] at hguard
    simp only [Bool.and_eq_true_iff, Bool.not_eq_true'] at h
    obtain ⟨⟨hs1, hocc⟩, hs2⟩ := h
    rcases hguard with ⟨hy2, hx0⟩ | ⟨hy0, hx2⟩
    · have hbx : b.x = a.x := by omega
      rcases Int.natAbs_eq_iff.mp hy2 with hdy | hdy
      · have e : (⟨b.x - (b.x - a.x) / 2, b.y - (b.y - a.y) / 2⟩ : Point) =
            ⟨a.x, a.y + 1⟩ := by
          have e1 : b.x - (b.x - a.x) / 2 = a.x := by rw [hx0]; norm_num; omega
          have e2 : b.y - (b.y - a.y) / 2 = a.y + 1 := by
            rw [hdy]; norm_num; omega
          rw [e1, e2]
        rw [e] at hs1 hs2
        refine wallsReach_two_step walls a ⟨a.x, a.y + 1⟩ b ?_ ?_
        · exact ⟨hain, by simp only [inbounds_iff]; omega,
            by simp only [neighbors_iff]; omega, hs1⟩
        · exact ⟨by simp only [inbounds_iff]; omega, hbin,
            by simp only [neighbors_iff]; omega, hs2⟩
      · have e : (⟨b.x - (b.x - a.x) / 2, b.y - (b.y - a.y) / 2⟩ : Point) =
            ⟨a.x, a.y - 1⟩ := by
          have e1 : b.x - (b.x - a.x) / 2 = a.x := by rw [hx0]; norm_num; omega
          have e2 : b.y - (b.y - a.y) / 2 = a.y - 1 := by
            rw [hdy]; norm_num; omega
          rw [e1, e2]
        rw [e] at hs1 hs2
        refine wallsReach_two_step walls a ⟨a.x, a.y - 1⟩ b ?_ ?_
        · exact ⟨hain, by simp only [inbounds_iff]; omega,
            by simp only [neighbors_iff]; omega, hs1⟩
        · exact ⟨by simp only [inbounds_iff]; omega, hbin,
            by simp only [neighbors_iff]; omega, hs2⟩
    · have hby : b.y = a.y := by omega
      rcases Int.natAbs_eq_iff.mp hx2 with hdx | hdx
      · have e : (⟨b.x - (b.x - a.x) / 2, b.y - (b.y - a.y) / 2⟩ : Point) =
            ⟨a.x + 1, a.y⟩ := by
          have e1 : b.x - (b.x - a.x) / 2 = a.x + 1 := by
            rw [hdx]; norm_num; omega
          have e2 : b.y - (b.y - a.y) / 2 = a.y := by rw [hy0]; norm_num; omega
          rw [e1, e2]
        rw [e] at hs1 hs2
        refine wallsReach_two_step walls a ⟨a.x + 1, a.y⟩ b ?_ ?_
        · exact ⟨hain, by simp only [inbounds_iff]; omega,
            by simp only [neighbors_iff]; omega, hs1⟩
        · exact ⟨by simp only [inbounds_iff]; omega, hbin,
            by simp only [neighbors_iff]; omega, hs2⟩
      · have e : (⟨b.x - (b.x - a.x) / 2, b.y - (b.y - a.y) / 2⟩ : Point) =
            ⟨a.x - 1, a.y⟩ := by
          have e1 : b.x - (b.x - a.x) / 2 = a.x - 1 := by
            rw [hdx]; norm_num; omega
          have e2 : b.y - (b.y - a.y) / 2 = a.y := by rw [hy0]; norm_num; omega
          rw [e1, e2]
        rw [e] at hs1 hs2
        refine wallsReach_two_step walls a ⟨a.x - 1, a.y⟩ b ?_ ?_
        · exact ⟨hain, by simp only [inbounds_iff]; omega,
            by simp only [neighbors_iff]; omega, hs1⟩
        · exact ⟨by simp only [inbounds_iff]; omega, hbin,
            by simp only [neighbors_iff]; omega, hs2⟩
  · -- not a linear jump
    split at h
    · -- corner jump branch
      next hlin hcorner =>
      simp only [Bool.and_eq_true_iff, beq_iff_eq] at hcorner
      obtain ⟨hx1, hy1⟩ := hcorner
      have ex : a.x + (b.x - a.x) = b.x := by ring
      split at h
      · -- first diagonal alternative accepted
        next hc1 =>
        simp only [Bool.and_eq_true_iff, Bool.not_eq_true'] at hc1
        obtain ⟨⟨⟨_, _⟩, hs1⟩, hs2⟩ := hc1
        rw [ex] at hs1 hs2
        refine wallsReach_two_step walls a ⟨b.x, a.y⟩ b ?_ ?_
        · exact ⟨hain, by simp only [inbounds_iff]; omega,
            by simp only [neighbors_iff]; omega, hs1⟩
        · exact ⟨by simp only [inbounds_iff]; omega, hbin,
            by simp only [neighbors_iff]; omega, hs2⟩
      · -- second diagonal alternative accepted
        next hc1 =>
        have ey : a.y + (b.y - a.y) = b.y := by ring
        simp only [Bool.and_eq_true_iff, Bool.not_eq_true'] at h
        obtain ⟨⟨⟨_, _⟩, hs1⟩, hs2⟩ := h
        rw [ey] at hs1 hs2
        refine wallsReach_two_step walls a ⟨a.x, b.y⟩ b ?_ ?_
        · exact ⟨hain, by simp only [inbounds_iff]; omega,
            by simp only [neighbors_iff]; omega, hs1⟩
        · exact ⟨by simp only [inbounds_iff]; omega, hbin,
            by simp only [neighbors_iff]; omega, hs2⟩
    · exact absurd h (by simp)

theorem adj_to_wallsReach (walls : List Wall) (occ : Point → Bool) (a b : Point)
    (h : adjCore walls occ a b = true) : WallsReach walls a b := by
  simp only [adjCore] at h
  split at h
  · exact absurd h (by simp)
  · split at h
    · exact absurd h (by simp)
    · split at h
      · exact absurd h (by simp)
      · split at h
        · -- non-neighbours: jump
          next h1 h2 _ hnb =>
          have hain : a.inbounds = true := by
            rcases hi : a.inbounds
            · rw [hi] at h1
              simp at h1
            · rfl
          have hbin : b.inbounds = true := by
            rcases hi : b.inbounds
            · rw [hi] at h2
              simp at h2
            · rfl
          exact jump_to_wallsReach walls occ a b hain hbin h
        · -- orthogonal neighbours
          split at h
          · exact absurd h (by simp)
          · split at h
            · exact absurd h (by simp)
            · next h1 h2 _ hnb _ hwall =>
              have hain : a.inbounds = true := by
                rcases hi : a.inbounds
                · rw [hi] at h1
                  simp at h1
                · rfl
              have hbin : b.inbounds = true := by
                rcases hi : b.inbounds
                · rw [hi] at h2
                  simp at h2
                · rfl
              have hn : a.neighbors b = true := by
                rcases hi : a.neighbors b
                · rw [hi] at hnb
                  simp at hnb
                · rfl
              have hw : has_wall_between walls a b = false := by
                rcases hi : has_wall_between walls a b
                · rfl
                · rw [hi] at hwall
                  simp at hwall
              exact Relation.ReflTransGen.single ⟨hain, hbin, hn, hw⟩

theorem adjReach_to_wallsReach (walls : List Wall) (occ : Point → Bool)
    (a b : Point) (h : AdjReach walls occ a b) : WallsReach walls a b := by
  induction h with
  | refl => exact Relation.ReflTransGen.refl
  | tail hab hbc ih => exact ih.trans (adj_to_wallsReach walls occ _ _ hbc)

/-! Section: From a passed win-condition check to a wall-respecting path -/

theorem foldl_or_any (f : Nat → Bool) (l : List Nat) (b : Bool) :
    l.foldl (fun v i => v || f i) b = (b || l.any f) := by
  induction l generalizing b with
  | nil => simp
  | cons x xs ih => simp [List.foldl, ih, Bool.or_assoc]

theorem goalRowScan_exists (d : DistMap) (y : Int) (h : goalRowScan d y = true) :
    ∃ i : Nat, i < 9 ∧ dlookup d ⟨Int.ofNat i, y⟩ < MAX_DIST := by
  unfold goalRowScan at h
  rw [foldl_or_any (fun i => decide (dlookup d ⟨Int.ofNat i, y⟩ < MAX_DIST))
    (List.range 9) false] at h
  simp only [Bool.false_or, List.any_eq_true, List.mem_range,
    decide_eq_true_eq] at h
  obtain ⟨i, hi, hlt⟩ := h
  exact ⟨i, hi, hlt⟩

theorem check_win_core_reach (g : Game) (pl : Player)
    (h : check_win_core g pl = true) :
    (pl.id = 0 ∨ pl.id = 1) ∧
      ∃ t : Point, goalEdge pl t ∧ AdjReach g.walls (occB g) pl.p t := by
  unfold check_win_core at h
  by_cases h0 : pl.id = 0
  · rw [if_pos h0] at h
    obtain ⟨i, hi, hlt⟩ := goalRowScan_exists _ _ h
    exact ⟨Or.inl h0, ⟨Int.ofNat i, N - 1⟩, Or.inl ⟨h0, rfl⟩,
      dijkstra_reach g.walls (occB g) pl.p _ hlt⟩
  · rw [if_neg h0] at h
    by_cases h1 : pl.id = 1
    · rw [if_pos h1] at h
      obtain ⟨i, hi, hlt⟩ := goalRowScan_exists _ _ h
      exact ⟨Or.inr h1, ⟨Int.ofNat i, 0⟩, Or.inr (Or.inl ⟨h1, rfl⟩),
        dijkstra_reach g.walls (occB g) pl.p _ hlt⟩
    · rw [if_neg h1] at h
      exact absurd h (by simp)

/-! Section: The wall-admissibility check and its rollback -/

theorem hsErase_hsInsert (l : List Wall) (w : Wall) (h : w ∉ l) :
    hsErase (hsInsert l w) w = l := by
  unfold hsInsert hsErase
  rw [if_neg h, List.erase_append_right [w] h]
  simp

theorem is_valid_wall_true_elim (g : Game) (w : Wall) (g2 : Game)
    (h : is_valid_wall g w = (true, g2)) :
    w ∉ g.walls ∧ g2 = g ∧
      ({ g with walls := hsInsert g.walls w } : Game).players.all
        (fun kv =>
          check_win_core { g with walls := hsInsert g.walls w } kv.2) = true := by
  unfold is_valid_wall at h
  split_ifs at h with h1 h2 h3 h4 <;>
    first
    | (exfalso; rw [Prod.mk.injEq] at h; exact Bool.false_ne_true h.1)
    | skip
  rw [Prod.mk.injEq] at h
  have hnot : w ∉ g.walls := by
    simpa [hsContains] using h2
  refine ⟨hnot, ?_, h.1⟩
  rw [← h.2]
  show ({ g with walls := hsErase (hsInsert g.walls w) w } : Game) = g
  rw [hsErase_hsInsert g.walls w hnot]

/-- Claim C1: whenever `add_wall` accepts a wall, every registered player in
the resulting state still has a finite-length path, respecting walls and
ignoring pawn occupancy, from its current position to some cell of its goal
edge. -/
theorem add_wall_ok_gives_paths (g : Game) (w : Wall)
    (h : (add_wall g w).1 = RRes.ok) :
    ∀ kv ∈ (add_wall g w).2.players,
      ∃ t : Point, goalEdge kv.2 t ∧
        WallsReach (add_wall g w).2.walls kv.2.p t := by
  unfold add_wall at h ⊢
  rcases hiv : is_valid_wall g w with ⟨ok, g2⟩
  cases ok
  · rw [hiv] at h
    simp at h
  · obtain ⟨hnotin, hg2, hall⟩ := is_valid_wall_true_elim g w g2 hiv
    dsimp only at h ⊢
    rw [hg2]
    intro kv hkv
    have hmem : kv ∈ ({ g with walls := hsInsert g.walls w } : Game).players := hkv
    have hcheck := List.all_eq_true.mp hall kv hmem
    obtain ⟨hid, t, hgoal, hreach⟩ :=
      check_win_core_reach { g with walls := hsInsert g.walls w } kv.2 hcheck
    exact ⟨t, hgoal, adjReach_to_wallsReach _ _ _ _ hreach⟩

/-- Claim C1 witness: a concrete accepted wall placement, instantiating the
theorem. -/
theorem add_wall_ok_gives_paths_witness :
    (add_wall Game.new w0).1 = RRes.ok ∧
      ∀ kv ∈ (add_wall Game.new w0).2.players,
        ∃ t : Point, goalEdge kv.2 t ∧
          WallsReach (add_wall Game.new w0).2.walls kv.2.p t :=
  ⟨by decide, add_wall_ok_gives_paths Game.new w0 (by decide)⟩

/-- Claim C4: the admissibility simulation always hands back the caller's
original state (the tentative wall is removed on every outcome), and a
rejected `add_wall` leaves the game exactly as it was. -/
theorem wall_check_rollback (g : Game) (w : Wall) :
    (is_valid_wall g w).2 = g ∧
      ((add_wall g w).1 = RRes.err → (add_wall g w).2 = g) := by
  have hro : (is_valid_wall g w).2 = g := by
    unfold is_valid_wall
    split_ifs with h1 h2 h3 h4
    · rfl
    · rfl
    · rfl
    · rfl
    · dsimp only
      have hnot : w ∉ g.walls := by simpa [hsContains] using h2
      show ({ g with walls := hsErase (hsInsert g.walls w) w } : Game) = g
      rw [hsErase_hsInsert g.walls w hnot]
  refine ⟨hro, ?_⟩
  intro herr
  unfold add_wall at herr ⊢
  dsimp only at herr ⊢
  by_cases hv : (is_valid_wall g w).1 = true
  · rw [if_pos hv] at herr
    simp at herr
  · rw [if_neg hv] at herr ⊢
    exact hro

/-- Claim C4 witness: a rejected out-of-bounds wall leaves the fresh game
unchanged. -/
theorem wall_check_rollback_witness :
    (add_wall Game.new (Wall.horizontal 0 5)).1 = RRes.err ∧
      (add_wall Game.new (Wall.horizontal 0 5)).2 = Game.new ∧
      (is_valid_wall Game.new (Wall.horizontal 0 5)).2 = Game.new :=
  ⟨by decide,
   (wall_check_rollback Game.new (Wall.horizontal 0 5)).2 (by decide),
   (wall_check_rollback Game.new (Wall.horizontal 0 5)).1⟩

/-- Claim C3 (code defect): a pawn landing on its goal row is not detected
as a win (`has_won` only fires off-board), `next_turn` never assigns
`GAME_OVER` (the source compares instead of assigning), and the game keeps
accepting moves afterwards. -/
theorem game_over_never_reached :
    move_player_to gC3 ("a") ⟨3, 8⟩ = some (RRes.ok, gC3after) ∧
    N - 1 = 8 ∧
    (mlookup ("a") gC3after.players).map Player.has_won = some false ∧
    next_turn gC3after = some { gC3after with turn := 1 } ∧
    GAME_OVER = -2 ∧
    (move_player_to { gC3after with turn := 1 } ("b") ⟨4, 7⟩).map Prod.fst =
      some RRes.ok := by decide

/-! Section: Wall counts are never consulted nor changed by the engine -/

theorem is_valid_wall_players (g : Game) (w : Wall) :
    (is_valid_wall g w).2.players = g.players := by
  unfold is_valid_wall
  split_ifs <;> rfl

theorem add_wall_players (g : Game) (w : Wall) :
    (add_wall g w).2.players = g.players := by
  unfold add_wall
  dsimp only
  by_cases hv : (is_valid_wall g w).1 = true
  · rw [if_pos hv]
    exact is_valid_wall_players g w
  · rw [if_neg hv]
    exact is_valid_wall_players g w

theorem wallCounts_updatePlayer (ps : List (String × Player)) (nm : String)
    (f : Player → Player) (hf : ∀ q, (f q).walls = q.walls) :
    (updatePlayer ps nm f).map (fun kv => (kv.1, kv.2.walls)) =
      ps.map (fun kv => (kv.1, kv.2.walls)) := by
  unfold updatePlayer
  rw [List.map_map]
  apply List.map_congr_left
  intro kv _
  by_cases h : kv.1 = nm <;> simp [h, hf]

/-- Claim C5 (amended): the engine never touches a player's remaining-wall
count: `add_wall` succeeds or fails without consulting or decrementing it,
and moves and turn increments leave it unchanged as well. -/
theorem wall_counts_never_change (g : Game) (w : Wall) (nm : String)
    (pos : Point) :
    wallCounts (add_wall g w).2 = wallCounts g ∧
    (∀ r g2, move_player_to g nm pos = some (r, g2) →
      wallCounts g2 = wallCounts g) ∧
    (∀ g2, next_turn g = some g2 → wallCounts g2 = wallCounts g) := by
  refine ⟨?_, ?_, ?_⟩
  · unfold wallCounts
    rw [add_wall_players]
  · intro r g2 hmv
    unfold move_player_to at hmv
    rcases hl : mlookup nm g.players with _ | pl
    · rw [hl] at hmv
      simp only [Option.isSome_none, Bool.not_false, if_pos] at hmv
      injection hmv with h1
      injection h1 with hr hg
      rw [← hg]
    · rw [hl] at hmv
      simp only [Option.isSome_some, Bool.not_true, Bool.false_eq_true,
        if_false] at hmv
      by_cases hadj : g.adj pl.p pos = true
      · rw [if_pos hadj] at hmv
        injection hmv with h1
        injection h1 with hr hg
        rw [← hg]
        unfold wallCounts
        dsimp only
        exact wallCounts_updatePlayer g.players nm _ (fun q => rfl)
      · rw [if_neg hadj] at hmv
        injection hmv with h1
        injection h1 with hr hg
        rw [← hg]
  · intro g2 hnt
    unfold next_turn at hnt
    by_cases hz : (g.players.length == 0) = true
    · rw [if_pos hz] at hnt
      exact absurd hnt (by simp)
    · rw [if_neg hz] at hnt
      injection hnt with hg
      rw [← hg]
      rfl

/-- Claim C5 witness: instantiating the theorem on the started two-player
state, with a concrete accepted move and turn increment. -/
theorem wall_counts_never_change_witness :
    wallCounts (add_wall gSW w0).2 = wallCounts gSW ∧
    wallCounts gSWmoved = wallCounts gSW ∧
    wallCounts { gSW with turn := 1 } = wallCounts gSW :=
  ⟨(wall_counts_never_change gSW w0 ("b") ⟨4, 7⟩).1,
   (wall_counts_never_change gSW w0 ("b") ⟨4, 7⟩).2.1 RRes.ok gSWmoved
     (by decide),
   (wall_counts_never_change gSW w0 ("b") ⟨4, 7⟩).2.2 { gSW with turn := 1 }
     (by decide)⟩

/-! Section: Adjacency symmetry (holds only in the absence of pawns) -/

theorem jump_unocc_false (walls : List Wall) (a b : Point) :
    is_valid_jumpCore walls (fun _ => false) a b = false := by
  simp [is_valid_jumpCore]

theorem adjCore_symm_unocc (walls : List Wall) (a b : Point) :
    adjCore walls (fun _ => false) a b = adjCore walls (fun _ => false) b a := by
  unfold adjCore
  rcases ha : a.inbounds <;> rcases hb : b.inbounds <;>
    simp only [ha, hb, Bool.not_true, Bool.not_false, Bool.false_eq_true,
      Bool.true_eq_false, if_true, if_false]
  by_cases hab : a = b
  · subst hab
    simp
  · have hba : ¬ b = a := fun hh => hab hh.symm
    simp only [beq_iff_eq, hab, hba, if_false]
    rw [neighbors_symm b a]
    rcases hn : a.neighbors b
    · simp only [Bool.not_false, if_true]
      rw [jump_unocc_false, jump_unocc_false]
    · simp only [Bool.not_true, Bool.false_eq_true, if_false]
      rw [has_wall_symm walls b a]

/-- Claim C9 (amended): adjacency is symmetric for a game with no registered
pawns; occupancy blocking (which tests only the destination) and the jump
rules break symmetry once pawns are present. -/
theorem adj_symmetric_no_pawns (g : Game) (a b : Point) (h : g.players = []) :
    g.adj a b = g.adj b a := by
  unfold Game.adj
  have ho : occB g = (fun _ => false) := by
    funext pt
    simp [occB, h]
  rw [ho]
  exact adjCore_symm_unocc g.walls a b

/-- Claim C9 witness: symmetry instantiated on the empty game. -/
theorem adj_symmetric_no_pawns_witness :
    Game.new.players = [] ∧
      Game.new.adj ⟨0, 0⟩ ⟨0, 1⟩ = Game.new.adj ⟨0, 1⟩ ⟨0, 0⟩ :=
  ⟨rfl, adj_symmetric_no_pawns Game.new ⟨0, 0⟩ ⟨0, 1⟩ rfl⟩

/-- Claim C9 counterexample: with a pawn on `(4,5)`, the move into the
occupied cell is rejected but the move out of it is accepted, so `adj` is
not symmetric between the in-bounds cells `(4,4)` and `(4,5)`. -/
theorem adj_not_symmetric_cex :
    (⟨4, 4⟩ : Point).inbounds = true ∧ (⟨4, 5⟩ : Point).inbounds = true ∧
    gC9.adj ⟨4, 4⟩ ⟨4, 5⟩ = false ∧ gC9.adj ⟨4, 5⟩ ⟨4, 4⟩ = true := by decide

/-! Section: Which engine entry points can panic -/

theorem move_player_to_total (g : Game) (nm : String) (pos : Point) :
    (move_player_to g nm pos).isSome = true := by
  unfold move_player_to
  rcases hl : mlookup nm g.players with _ | pl
  · simp
  · simp only [Option.isSome_some, Bool.not_true, Bool.false_eq_true, if_false]
    split <;> rfl

theorem start_game_isSome_of_two (g : Game) (h : g.players.length = 2) :
    (start_game g).isSome = true := by
  unfold start_game
  dsimp only
  rw [if_pos]
  · rfl
  · simp [h]

theorem add_player_total (g : Game) (nm key : String) :
    (add_player g nm key).isSome = true := by
  unfold add_player
  split_ifs with h1 h2 h3
  · rfl
  · rfl
  · rfl
  · rcases hg : starting_positions.get? g.players.length with _ | pos
    · rw [List.get?_eq_none] at hg
      unfold starting_positions at hg
      simp at hg
      omega
    · dsimp only
      split
      · next hlen2 =>
        rcases hsg : start_game
            { g with players := g.players ++
                [(nm, { p := pos, p_last := none, key := key,
                        id := g.players.length, walls := 0, name := nm })] }
            with _ | g2
        · have h2 := start_game_isSome_of_two
            { g with players := g.players ++
                [(nm, { p := pos, p_last := none, key := key,
                        id := g.players.length, walls := 0, name := nm })] }
            (by simpa using hlen2)
          rw [hsg] at h2
          exact absurd h2 (by simp)
        · rfl
      · rfl

/-- Claim C10 (amended): `move_player_to` and `add_player` return a
structured result on every input, while `move_player` and
`check_win_condition` return normally exactly when the player name is
registered (an unregistered name panics — `none` in this embedding). -/
theorem engine_panic_surface (g : Game) (nm key dir : String) (pos : Point) :
    (move_player_to g nm pos).isSome = true ∧
    (add_player g nm key).isSome = true ∧
    ((mlookup nm g.players).isSome = true →
      (move_player g nm dir).isSome = true ∧
      (check_win_condition g nm).isSome = true) := by
  refine ⟨move_player_to_total g nm pos, add_player_total g nm key, ?_⟩
  intro hl
  rcases hx : mlookup nm g.players with _ | pl
  · rw [hx] at hl
    simp at hl
  · constructor
    · unfold move_player
      rw [hx]
      dsimp only
      split_ifs
      · exact move_player_to_total g nm _
      · exact move_player_to_total g nm _
      · exact move_player_to_total g nm _
      · exact move_player_to_total g nm _
      · rfl
    · unfold check_win_condition
      rw [hx]
      rfl

/-- Claim C10 witness: a registered name never panics; unrelated names are
safe for the total entry points. -/
theorem engine_panic_surface_witness :
    (mlookup ("a") g1p.players).isSome = true ∧
    (move_player g1p ("a") ("UP")).isSome = true ∧
    (check_win_condition g1p ("a")).isSome = true ∧
    (move_player_to g1p ("zz") ⟨0, 0⟩).isSome = true ∧
    (add_player g1p ("c") ("")).isSome = true :=
  ⟨by decide,
   ((engine_panic_surface g1p ("a") ("") ("UP") ⟨0, 0⟩).2.2 (by decide)).1,
   ((engine_panic_surface g1p ("a") ("") ("UP") ⟨0, 0⟩).2.2 (by decide)).2,
   (engine_panic_surface g1p ("zz") ("") ("UP") ⟨0, 0⟩).1,
   (engine_panic_surface g1p ("c") ("") ("UP") ⟨0, 0⟩).2.1⟩

/-- Claim C10 counterexample: `move_player` and `check_win_condition` panic
(`none`) on an unregistered name, so not every engine call returns a
structured result. -/
theorem lookup_panic_cex :
    move_player Game.new ("x") ("UP") = none ∧
    check_win_condition Game.new ("x") = none := by decide

/-! Section: The corner-jump rule as implemented -/

/-- Claim C7 (amended): for a diagonal displacement the validator accepts
exactly the specification's corner-jump condition with one change: only a
wall immediately behind the opponent counts as the blocker — the board edge
does not. -/
theorem corner_jump_characterization (walls : List Wall) (occ : Point → Bool)
    (a b : Point) (hx : (b.x - a.x).natAbs = 1) (hy : (b.y - a.y).natAbs = 1) :
    is_valid_jumpCore walls occ a b = cornerJumpWallOnly walls occ a b := by
  have hif : ∀ (c d : Bool), (if c = true then true else d) = (c || d) := by
    intro c d
    cases c <;> simp
  simp only [is_valid_jumpCore, cornerJumpWallOnly]
  have e1 : a.x + (b.x - a.x) = b.x := by ring
  have e2 : a.y + (b.y - a.y) = b.y := by ring
  have hdx0 : (b.x - a.x == 0) = false := by
    have hne : b.x - a.x ≠ 0 := by omega
    simpa using hne
  have hdy0 : (b.y - a.y == 0) = false := by
    have hne : b.y - a.y ≠ 0 := by omega
    simpa using hne
  rw [e1, e2, hx, hy, hdx0, hdy0]
  simp only [Nat.reduceBEq, Bool.and_false, Bool.false_and, Bool.or_self,
    Bool.false_eq_true, if_false, Bool.and_true, Bool.true_and, if_true]
  rw [hif]

/-- Claim C7 witness: the characterization instantiated on the concrete
corner-jump scenario with a wall behind the opponent. -/
theorem corner_jump_characterization_witness :
    ((⟨5, 5⟩ : Point).x - (⟨4, 4⟩ : Point).x).natAbs = 1 ∧
    is_valid_jumpCore gC7.walls (occB gC7) ⟨4, 4⟩ ⟨5, 5⟩ =
      cornerJumpWallOnly gC7.walls (occB gC7) ⟨4, 4⟩ ⟨5, 5⟩ ∧
    is_valid_jumpCore gC7.walls (occB gC7) ⟨4, 4⟩ ⟨5, 5⟩ = true :=
  ⟨by decide,
   corner_jump_characterization gC7.walls (occB gC7) ⟨4, 4⟩ ⟨5, 5⟩
     (by decide) (by decide),
   by decide⟩

/-- Claim C7 counterexample: with the opponent on the west edge and no walls
at all, the specification's wording (board edge counts as the blocker
behind) accepts the corner jump `(1,4) → (0,3)`, but the implementation
rejects it. -/
theorem corner_jump_board_edge_cex :
    cornerJumpSpec gEdge.walls (occB gEdge) cornerA cornerB = true ∧
    Game.is_valid_jump gEdge cornerA cornerB = false := by decide

/-! Section: No engine mutator consults the turn field -/

theorem check_win_core_ext (g1 g2 : Game) (hw : g1.walls = g2.walls)
    (hp : g1.players = g2.players) (pl : Player) :
    check_win_core g1 pl = check_win_core g2 pl := by
  unfold check_win_core Game.dijkstra occB
  rw [hw, hp]

theorem is_valid_wall_turn (gw : List Wall) (gp : List (String × Player))
    (t1 t2 : Int) (w : Wall) :
    (is_valid_wall ⟨gw, gp, t1⟩ w).1 = (is_valid_wall ⟨gw, gp, t2⟩ w).1 ∧
    (is_valid_wall ⟨gw, gp, t1⟩ w).2 =
      { (is_valid_wall ⟨gw, gp, t2⟩ w).2 with turn := t1 } := by
  have hfe :
      (fun (kv : String × Player) =>
          check_win_core ⟨hsInsert gw w, gp, t1⟩ kv.2) =
        (fun (kv : String × Player) =>
          check_win_core ⟨hsInsert gw w, gp, t2⟩ kv.2) :=
    funext fun kv => check_win_core_ext _ _ rfl rfl kv.2
  unfold is_valid_wall
  dsimp only
  split_ifs
  · exact ⟨rfl, rfl⟩
  · exact ⟨rfl, rfl⟩
  · exact ⟨rfl, rfl⟩
  · exact ⟨rfl, rfl⟩
  · constructor
    · dsimp only
      rw [hfe]
    · rfl

/-- Claim C6 (amended): the engine never consults the turn field: whether a
move or a wall placement is accepted, and its effect on pawns and walls, is
the same for every value of `turn` — no call is rejected for being out of
turn. -/
theorem engine_ignores_turn (g : Game) (nm : String) (pos : Point) (w : Wall)
    (t : Int) :
    ((move_player_to { g with turn := t } nm pos).map (fun r => r.1) =
       (move_player_to g nm pos).map (fun r => r.1)) ∧
    ((move_player_to { g with turn := t } nm pos).map (fun r => r.2.players) =
       (move_player_to g nm pos).map (fun r => r.2.players)) ∧
    ((add_wall { g with turn := t } w).1 = (add_wall g w).1) ∧
    ((add_wall { g with turn := t } w).2.walls = (add_wall g w).2.walls) ∧
    ((add_wall { g with turn := t } w).2.players = (add_wall g w).2.players) := by
  obtain ⟨gw, gp, gt⟩ := g
  have hadj_eq : ∀ x y, Game.adj ⟨gw, gp, t⟩ x y = Game.adj ⟨gw, gp, gt⟩ x y :=
    fun x y => rfl
  have hivw := is_valid_wall_turn gw gp t gt w
  refine ⟨?_, ?_, ?_, ?_, ?_⟩
  · unfold move_player_to
    dsimp only
    rcases hl : mlookup nm gp with _ | pl
    · rfl
    · dsimp only
      rw [hadj_eq pl.p pos]
      by_cases hadj : Game.adj ⟨gw, gp, gt⟩ pl.p pos = true
      · rw [if_pos hadj, if_pos hadj]
        rfl
      · rw [if_neg hadj, if_neg hadj]
        rfl
  · unfold move_player_to
    dsimp only
    rcases hl : mlookup nm gp with _ | pl
    · rfl
    · dsimp only
      rw [hadj_eq pl.p pos]
      by_cases hadj : Game.adj ⟨gw, gp, gt⟩ pl.p pos = true
      · rw [if_pos hadj, if_pos hadj]
        rfl
      · rw [if_neg hadj, if_neg hadj]
        rfl
  · unfold add_wall
    dsimp only
    rw [hivw.1]
    by_cases hv : (is_valid_wall ⟨gw, gp, gt⟩ w).1 = true
    · rw [if_pos hv, if_pos hv]
    · rw [if_neg hv, if_neg hv]
  · unfold add_wall
    dsimp only
    rw [hivw.1, hivw.2]
    by_cases hv : (is_valid_wall ⟨gw, gp, gt⟩ w).1 = true
    · rw [if_pos hv, if_pos hv]
    · rw [if_neg hv, if_neg hv]
  · unfold add_wall
    dsimp only
    rw [hivw.1, hivw.2]
    by_cases hv : (is_valid_wall ⟨gw, gp, gt⟩ w).1 = true
    · rw [if_pos hv, if_pos hv]
    · rw [if_neg hv, if_neg hv]

/-- Claim C6 counterexample: in the started two-player game with active index
0, the move submitted for player `b` (id 1) is accepted and mutates the
state, instead of being rejected as out of turn. -/
theorem move_accepted_out_of_turn_cex :
    gSW.turn = 0 ∧
    (mlookup ("b") gSW.players).map Player.id = some 1 ∧
    move_player_to gSW ("b") ⟨4, 7⟩ = some (RRes.ok, gSWmoved) := by decide

/-! Section: What the distance map depends on -/

/-- Claim C2 (amended): the distance map is a function of the wall set and
the occupied-cells predicate alone — any two states agreeing on those (for
any player names, ids, credentials or wall counts) yield identical
`dijkstra` results. -/
theorem dijkstra_determined_by_walls_and_occupancy (g1 g2 : Game) (src : Point)
    (hw : g1.walls = g2.walls) (ho : ∀ pt, occB g1 pt = occB g2 pt) :
    g1.dijkstra src = g2.dijkstra src := by
  unfold Game.dijkstra
  rw [hw, funext ho]

/-- Claim C2 witness: two one-player states with different names, ids,
credentials and wall counts but the same pawn placement give the same
distance map. -/
theorem dijkstra_determined_witness :
    gO1.walls = gO2.walls ∧ (∀ pt, occB gO1 pt = occB gO2 pt) ∧
      gO1.dijkstra ⟨4, 0⟩ = gO2.dijkstra ⟨4, 0⟩ :=
  ⟨rfl, fun _ => rfl,
   dijkstra_determined_by_walls_and_occupancy gO1 gO2 ⟨4, 0⟩ rfl fun _ => rfl⟩

/-! Section: Serialisation round trip (modulo the dropped wall set) -/

theorem as_u64_nonneg (v : Int) (h : 0 ≤ v) : as_u64 v = some v := by
  unfold as_u64
  rw [if_neg (by omega)]

theorem u64_as_i32_small (v : Int) (h0 : 0 ≤ v) (h1 : v < 2147483648) :
    u64_as_i32 v = v := by
  simp only [u64_as_i32]
  have he : v % 4294967296 = v := Int.emod_eq_of_lt h0 (by omega)
  rw [he, if_pos h1]

theorem u64_as_u8_small (n : Nat) (h : n < 256) : u64_as_u8 (n : Int) = n := by
  unfold u64_as_u8
  rw [Int.emod_eq_of_lt (by omega) (by omega)]
  simp

theorem player_from_json_to_json (pl : Player) (hid : pl.id < 256)
    (hwl : pl.walls < 256) (hx0 : 0 ≤ pl.p.x) (hx1 : pl.p.x < 2147483648)
    (hy0 : 0 ≤ pl.p.y) (hy1 : pl.p.y < 2147483648) :
    player_from_json pl.to_json = some (stripPlayer pl) := by
  unfold player_from_json Player.to_json
  simp only [List.get?_cons_zero, List.get?_cons_succ]
  rw [as_u64_nonneg pl.p.x hx0, as_u64_nonneg pl.p.y hy0]
  dsimp only
  rw [u64_as_i32_small pl.p.x hx0 hx1, u64_as_i32_small pl.p.y hy0 hy1,
    u64_as_u8_small pl.id hid, u64_as_u8_small pl.walls hwl]
  rfl

theorem mlookup_append_none {α β : Type} [DecidableEq α] (k : α)
    (l1 l2 : List (α × β)) (h : mlookup k l1 = none) :
    mlookup k (l1 ++ l2) = mlookup k l2 := by
  induction l1 with
  | nil => rfl
  | cons kv l1 ih =>
    by_cases hk : k = kv.1
    · simp only [mlookup, if_pos hk] at h
      exact absurd h (by simp)
    · simp only [List.cons_append, mlookup, if_neg hk] at h ⊢
      exact ih h

theorem from_json_fold_players (ps : List (String × Player)) (g0 : Game)
    (hpl : ∀ kv ∈ ps, kv.2.name = kv.1 ∧ kv.2.id < 256 ∧ kv.2.walls < 256 ∧
      0 ≤ kv.2.p.x ∧ kv.2.p.x < 2147483648 ∧
      0 ≤ kv.2.p.y ∧ kv.2.p.y < 2147483648)
    (hnd : (ps.map Prod.fst).Nodup)
    (hdisj : ∀ kv ∈ ps, mlookup kv.1 g0.players = none) :
    (ps.map (fun kv => kv.2.to_json)).foldl from_json_step (some g0) =
      some { g0 with players :=
        g0.players ++ ps.map (fun kv => (kv.1, stripPlayer kv.2)) } := by
  induction ps generalizing g0 with
  | nil => simp
  | cons kv ps ih =>
    obtain ⟨k, pl⟩ := kv
    obtain ⟨hnm, hid, hwl, hx0, hx1, hy0, hy1⟩ := hpl (k, pl) (by simp)
    simp only [List.map_cons, List.foldl_cons]
    have hstep : from_json_step (some g0) pl.to_json =
        some { g0 with players := g0.players ++ [(k, stripPlayer pl)] } := by
      unfold from_json_step
      rw [player_from_json_to_json pl hid hwl hx0 hx1 hy0 hy1]
      dsimp only
      have hname : (stripPlayer pl).name = k := hnm
      rw [hname]
      unfold hmInsert
      rw [hdisj (k, pl) (by simp)]
      rfl
    rw [hstep]
    have hnd' : (ps.map Prod.fst).Nodup := (List.nodup_cons.mp hnd).2
    have hk_not : k ∉ ps.map Prod.fst := by
      have := (List.nodup_cons.mp hnd).1
      simpa using this
    have hdisj' : ∀ kv ∈ ps,
        mlookup kv.1 ({ g0 with players :=
          g0.players ++ [(k, stripPlayer pl)] } : Game).players = none := by
      intro kv hkv
      dsimp only
      rw [mlookup_append_none kv.1 g0.players _ (hdisj kv (by simp [hkv]))]
      have hne : kv.1 ≠ k := by
        intro he
        exact hk_not (he ▸ List.mem_map_of_mem Prod.fst hkv)
      unfold mlookup
      rw [if_neg hne]
      rfl
    rw [ih _ (fun kv hkv => hpl kv (by simp [hkv])) hnd' hdisj']
    dsimp only
    rw [List.append_assoc]
    rfl

/-- Claim C8 (amended): for a well-formed started state (nonnegative turn,
player map keyed by the players' own names), deserialising the serialised
snapshot reproduces the turn and every player's name, id, position and
remaining wall count — but the wall set is dropped (the reconstructed game
has no walls), and the players lose their credential and last-position
backup. -/
theorem roundtrip_started_modulo_walls (g : Game)
    (ht0 : 0 ≤ g.turn) (ht1 : g.turn < 2147483648)
    (hpl : ∀ kv ∈ g.players, kv.2.name = kv.1 ∧ kv.2.id < 256 ∧
      kv.2.walls < 256 ∧ 0 ≤ kv.2.p.x ∧ kv.2.p.x < 2147483648 ∧
      0 ≤ kv.2.p.y ∧ kv.2.p.y < 2147483648)
    (hnd : (g.players.map Prod.fst).Nodup) :
    from_json g.to_json =
      some { walls := [], turn := g.turn,
             players := g.players.map (fun kv => (kv.1, stripPlayer kv.2)) } := by
  unfold from_json Game.to_json
  dsimp only
  rw [as_u64_nonneg g.turn ht0]
  dsimp only
  rw [u64_as_i32_small g.turn ht0 ht1]
  rw [from_json_fold_players g.players { Game.new with turn := g.turn } hpl hnd
    (fun kv _ => rfl)]
  rfl

/-- Claim C8 witness: the round trip on the started two-player state with a
wall: turn and players survive, the wall set does not. -/
theorem roundtrip_started_modulo_walls_witness :
    0 ≤ gSW.turn ∧ (gSW.players.map Prod.fst).Nodup ∧
    from_json gSW.to_json =
      some { walls := [], turn := gSW.turn,
             players := gSW.players.map (fun kv => (kv.1, stripPlayer kv.2)) } :=
  ⟨by decide, by decide,
   roundtrip_started_modulo_walls gSW (by decide) (by decide) (by decide)
     (by decide)⟩

/-! Section: No edge of the adjacency graph enters the occupied cell of `gB` -/

theorem occB_gB (pt : Point) : occB gB pt = decide (pt = (⟨4, 1⟩ : Point)) := by
  simp [occB, gB, eq_comm]

theorem gB_jump_blocked (u : Point) :
    is_valid_jumpCore gB.walls (occB gB) u ⟨4, 1⟩ = false := by
  simp only [is_valid_jumpCore]
  split
  · next hguard =>
    simp only [Bool.or_eq_true, Bool.and_eq_true_iff, beq_iff_eq] at hguard
    rw [occB_gB]
    rcases hguard with ⟨hy2, hx0⟩ | ⟨hy0, hx2⟩
    · rcases Int.natAbs_eq_iff.mp hy2 with hdy | hdy
      · rw [hx0, hdy]
        norm_num
      · rw [hx0, hdy]
        norm_num
    · rcases Int.natAbs_eq_iff.mp hx2 with hdx | hdx
      · rw [hy0, hdx]
        norm_num
      · rw [hy0, hdx]
        norm_num
  · split
    · next hlin hcorner =>
      simp only [Bool.and_eq_true_iff, beq_iff_eq] at hcorner
      obtain ⟨hx1, hy1⟩ := hcorner
      rw [occB_gB, occB_gB]
      have hux : ¬ ((⟨4, u.y⟩ : Point) = ⟨4, 1⟩) := by
        rw [Point.mk.injEq]
        omega
      have huy : ¬ ((⟨u.x, 1⟩ : Point) = ⟨4, 1⟩) := by
        rw [Point.mk.injEq]
        omega
      rw [decide_eq_false hux, decide_eq_false huy]
      simp
    · rfl

theorem gB_adj_blocked (u : Point) :
    adjCore gB.walls (occB gB) u ⟨4, 1⟩ = false := by
  simp only [adjCore]
  split
  · rfl
  · split
    · rfl
    · split
      · rfl
      · split
        · exact gB_jump_blocked u
        · split
          · rfl
          · next hocc5 =>
            exact absurd (show occB gB ⟨4, 1⟩ = true by decide) hocc5

/-! Section: A finite distance, once assigned, survives all later
relaxations (distances only ever decrease) -/

theorem relaxOne_finite (walls : List Wall) (occ : Point → Bool) (u : Point)
    (st : DS) (c x : Point)
    (h : dlookup st.dist x < MAX_DIST) :
    dlookup (relaxOne walls occ u st c).dist x < MAX_DIST := by
  unfold relaxOne
  by_cases hc : (dcontains st.dist c && adjCore walls occ u c) = true
  · rw [if_pos hc]
    by_cases hlt : dlookup st.dist u + 1 < dlookup st.dist c
    · rw [if_pos hlt]
      simp only
      rw [dlookup_dinsert]
      by_cases hxc : x = c
      · rw [if_pos hxc]
        subst hxc
        omega
      · rw [if_neg hxc]
        exact h
    · rw [if_neg hlt]; exact h
  · rw [if_neg hc]; exact h

theorem relaxFold_finite (walls : List Wall) (occ : Point → Bool) (u x : Point) :
    ∀ (cands : List Point) (st : DS),
    dlookup st.dist x < MAX_DIST →
    dlookup ((cands.foldl (relaxOne walls occ u) st)).dist x < MAX_DIST := by
  intro cands
  induction cands with
  | nil => intro st h; exact h
  | cons c cs ih =>
    intro st h
    exact ih _ (relaxOne_finite walls occ u st c x h)

theorem dijkstraLoop_finite (walls : List Wall) (occ : Point → Bool) (x : Point) :
    ∀ (fuel : Nat) (nodes : List Point) (st : DS),
    dlookup st.dist x < MAX_DIST →
    dlookup (dijkstraLoop walls occ fuel nodes st).dist x < MAX_DIST := by
  intro fuel
  induction fuel with
  | zero => intro nodes st h; exact h
  | succ f ih =>
    intro nodes st h
    simp only [dijkstraLoop]
    by_cases he : nodes.isEmpty
    · rw [if_pos he]; exact h
    · rw [if_neg he]
      exact ih _ _ (relaxFold_finite walls occ _ x _ st h)

/-- Unfolds one iteration of the `while !nodes.is_empty()` loop. -/
theorem dijkstraLoop_peel (walls : List Wall) (occ : Point → Bool)
    (f : Nat) (nodes : List Point) (st : DS) (hn : nodes.isEmpty = false) :
    dijkstraLoop walls occ (f + 1) nodes st =
      dijkstraLoop walls occ f (nodes.erase (selectMin st.dist nodes))
        (relaxAll walls occ (selectMin st.dist nodes) st) := by
  simp only [dijkstraLoop, hn, Bool.false_eq_true, if_false]

/-- A single finite entry on a goal row makes the win-condition scan of that
row succeed. -/
theorem goalRowScan_of_lt (d : DistMap) (y : Int) (i : Nat) (hi : i < 9)
    (h : dlookup d ⟨Int.ofNat i, y⟩ < MAX_DIST) :
    goalRowScan d y = true := by
  unfold goalRowScan
  rw [foldl_or_any (fun i => decide (dlookup d ⟨Int.ofNat i, y⟩ < MAX_DIST))
    (List.range 9) false]
  simp only [Bool.false_or, List.any_eq_true, List.mem_range,
    decide_eq_true_eq]
  exact ⟨i, hi, h⟩

/-! Section: Concrete path-validator evaluations (shared by the
counterexamples below).  The deep dijkstra runs are settled by the
monotonicity lemmas above instead of by brute-force evaluation: one loop
iteration from the source `(4,0)` makes `(4,1)` finite on the empty board,
and a pawn already standing on its goal row makes its own cell finite in the
very initial state.  All rewriting is done on fully generic states, so that
no tactic ever normalises a concrete `dijkstra` application; the only
concrete evaluations are the small `decide` leaves. -/

/-- The source cell itself always carries a finite distance: it is `0` in
the initial map and distances never increase. -/
theorem dijkstraCore_src_finite (walls : List Wall) (occ : Point → Bool)
    (src : Point) :
    dlookup (dijkstraCore walls occ src).dist src < MAX_DIST := by
  unfold dijkstraCore
  dsimp only
  apply dijkstraLoop_finite
  show dlookup (dinsert (gridPts.map (fun p => (p, MAX_DIST))) src 0) src <
    MAX_DIST
  rw [dlookup_dijkstra_init, if_pos rfl]
  decide

/-- Peels the first loop iteration off `dijkstraCore`: if the single
relaxation round of the minimum node `u` already gives `x` a finite
distance, the final map keeps it finite. -/
theorem dijkstraCore_first_round (walls : List Wall) (occ : Point → Bool)
    (src x u : Point)
    (hu : selectMin (dinsert (gridPts.map (fun p => (p, MAX_DIST))) src 0)
        gridPts = u)
    (h : dlookup (relaxAll walls occ u
        { dist := dinsert (gridPts.map (fun p => (p, MAX_DIST))) src 0,
          prev := [] }).dist x < MAX_DIST) :
    dlookup (dijkstraCore walls occ src).dist x < MAX_DIST := by
  unfold dijkstraCore
  dsimp only
  rw [show gridPts.length = 80 + 1 from by decide]
  rw [dijkstraLoop_peel _ _ _ _ _ (by decide)]
  dsimp only
  rw [hu]
  exact dijkstraLoop_finite _ _ _ _ _ _ h

/-- A player with id `0` passes the win-condition check as soon as one cell
of the goal row `y = N - 1` has a finite distance from its pawn. -/
theorem check_win_core_id0 (g : Game) (pl : Player) (h0 : pl.id = 0)
    (i : Nat) (hi : i < 9)
    (h : dlookup ((g.dijkstra pl.p).dist) ⟨Int.ofNat i, N - 1⟩ < MAX_DIST) :
    check_win_core g pl = true := by
  unfold check_win_core
  dsimp only
  rw [if_pos h0]
  exact goalRowScan_of_lt _ _ i hi h

set_option maxRecDepth 1000000 in
theorem dijkstra_empty_finite :
    dlookup ((Game.new.dijkstra ⟨4, 0⟩).dist) ⟨4, 1⟩ < MAX_DIST :=
  dijkstraCore_first_round Game.new.walls (occB Game.new) ⟨4, 0⟩ ⟨4, 1⟩
    ⟨4, 0⟩ (by decide) (by decide)

/-- The path check of the tentatively extended state `g1p8w` passes for the
single registered player: its pawn already stands on the goal row, so the
source cell itself is a finite goal-row entry of the distance map. -/
theorem check_win_g1p8w : check_win_core g1p8w pA8 = true :=
  check_win_core_id0 g1p8w pA8 rfl 3 (by decide)
    (dijkstraCore_src_finite g1p8w.walls (occB g1p8w) pA8.p)

theorem is_valid_wall_g1p8 : is_valid_wall g1p8 w0 = (true, g1p8) := by
  unfold is_valid_wall
  rw [if_neg (by decide), if_neg (by decide), if_neg (by decide),
    if_neg (by decide)]
  dsimp only
  rw [show ({ g1p8 with walls := hsInsert g1p8.walls w0 } : Game) = g1p8w
    from by decide]
  have hall : g1p8.players.all (fun kv => check_win_core g1p8w kv.2) = true := by
    show (check_win_core g1p8w pA8 && true) = true
    rw [Bool.and_true, check_win_g1p8w]
  rw [hall]
  decide

theorem add_wall_g1p8_eval : add_wall g1p8 w0 = (RRes.ok, g1p8w) := by
  unfold add_wall
  rw [is_valid_wall_g1p8]
  decide

/-- Claim C2 counterexample: two states with equal (empty) wall sets but
different pawn placements give different distance maps from `(4,0)` — on the
empty board the cell `(4,1)` gets a finite distance, while the pawn parked
on `(4,1)` makes its own cell unreachable (`MAX_DIST`), so occupancy is not
ignored. -/
theorem dijkstra_depends_on_pawns_cex :
    Game.new.walls = gB.walls ∧
    dlookup ((Game.new.dijkstra ⟨4, 0⟩).dist) ⟨4, 1⟩ < MAX_DIST ∧
    dlookup ((gB.dijkstra ⟨4, 0⟩).dist) ⟨4, 1⟩ = MAX_DIST ∧
    dlookup ((Game.new.dijkstra ⟨4, 0⟩).dist) ⟨4, 1⟩ ≠
      dlookup ((gB.dijkstra ⟨4, 0⟩).dist) ⟨4, 1⟩ := by
  have h1 := dijkstra_empty_finite
  have h2 : dlookup ((gB.dijkstra ⟨4, 0⟩).dist) ⟨4, 1⟩ = MAX_DIST :=
    dijkstra_unreached gB.walls (occB gB) ⟨4, 0⟩ ⟨4, 1⟩ (by decide)
      gB_adj_blocked
  refine ⟨rfl, h1, h2, fun hEq => ?_⟩
  rw [hEq, h2] at h1
  exact lt_irrefl _ h1

/-- Claim C5 counterexample: in the reachable one-player state `g1p8` the
single registered player holds zero wall chips, yet `add_wall` accepts the
wall and the count stays zero — neither the `wallsRemaining > 0` requirement
nor the decrement exists. -/
theorem add_wall_ignores_wall_allowance_cex :
    add_player Game.new ("a") ("") = some (RRes.ok, g1p) ∧
    runMoves g1p ("a") movesA = some g1p8 ∧
    (mlookup ("a") g1p8.players).map Player.walls = some 0 ∧
    add_wall g1p8 w0 = (RRes.ok, g1p8w) ∧
    (mlookup ("a") g1p8w.players).map Player.walls = some 0 :=
  ⟨by decide, by decide, by decide, add_wall_g1p8_eval, by decide⟩

/-- Claim C8 counterexample: the round trip fails on reachable states — the
fresh game (turn `-2`) does not deserialise at all, and the started game
with an accepted wall comes back with an empty wall set. -/
theorem serialization_roundtrip_cex :
    from_json Game.new.to_json = none ∧
    add_player Game.new ("a") ("") = some (RRes.ok, g1p) ∧
    runMoves g1p ("a") movesA = some g1p8 ∧
    add_wall g1p8 w0 = (RRes.ok, g1p8w) ∧
    add_player g1p8w ("b") ("") = some (RRes.ok, gSW8) ∧
    gSW8.walls = [w0] ∧
    (from_json gSW8.to_json).map Game.walls = some [] :=
  ⟨by decide, by decide, by decide, add_wall_g1p8_eval, by decide, rfl,
   by decide⟩

end Quoridor
